import Mathlib

/-!
Verification development for the clash-rule-tester core.

This file shallowly embeds the rule-matching engine of the repository:

* the domain pattern matcher `isWildcardMatch` from the helper module,
* the provider store `getRulesFromProvider` (fetch, parse, cache) from
  `src/core/network.ts`, together with a small interleaving machine that
  models two evaluations racing on the shared provider cache,
* the evaluation engine `matchDomain` and the scored provider-internal
  selection `matchAgainstRuleList` from `src/core/ruleMatcher.ts`.

JavaScript strings are modelled as `List Char` (`Str`).  The string
operations used by the source (`toLowerCase`, `toUpperCase`, `split`,
`trim`, `startsWith`, `endsWith`, `includes`, `substring`) are modelled by
the corresponding list operations below.  External collaborators that the
source delegates to are passed in as parameters:

* `cidr : Str → Option (Str → Bool)` models the ip-cidr library:
  `new CIDR(text)` either throws (`none`, the source catches and treats the
  rule as non-matching) or yields a containment test;
* `rtest : Str → Str → Bool` models `new RegExp(pattern).test` for the
  regex built by the scored matcher (including its catch-to-false);
* `transport : Str → Except Str Str` models fetching the body of a URL
  (non-2xx and rejections both surface as the error message the source
  would read from the exception);
* `yamlPayload : Str → Option (List Str)` models the YAML library: `none`
  when the parsed document has no payload array of strings;
* `resolver : Str → Option Str` models `resolveDomainToIp`, which maps any
  failure to `null`;
* `fetch : Str → Str → Except Str (List Str)` models the awaited outcome
  of `getRulesFromProvider url format` as seen by the engine.
-/

/-- JavaScript strings, modelled as lists of characters. -/
abbrev Str := List Char

/-- `s.toLowerCase()`. -/
def lower (s : Str) : Str := s.map Char.toLower

/-- `s.toUpperCase()`. -/
def upper (s : Str) : Str := s.map Char.toUpper

/-- `s.split(sep)` for a one-character separator: JavaScript yields
`[""]` on the empty string and keeps empty fields. -/
def splitChar (sep : Char) : Str → List Str
  | [] => [[]]
  | c :: rest =>
    match splitChar sep rest with
    | [] => [[c]]
    | h :: t => if c = sep then [] :: h :: t else (c :: h) :: t

/-- The whitespace predicate used by `trim`. -/
def wsp (c : Char) : Bool := c.isWhitespace

/-- `s.trim()`: drop leading and trailing whitespace. -/
def trim (s : Str) : Str := ((s.dropWhile wsp).reverse.dropWhile wsp).reverse

/-!
## Helper module (`isWildcardMatch`)

`isWildcardMatch` builds, for a rule containing `*`, the regular
expression `^` + rule-with-dots-escaped and `*` replaced by `[^.]+` + `$`
and tests the domain against it.  `wildMatch` interprets exactly that
pattern language: every character is matched literally except `*`, which
matches one or more characters other than `.`, anchored over the whole
string.  (The source swallows a regex construction failure and returns
`false`; rules whose remaining characters are themselves regex
metacharacters are outside this model.)
-/

/-- Anchored matching of a wildcard pattern (first argument) against a
string: literal characters match themselves, `*` matches one or more
characters excluding `.`. -/
def wildMatch : Str → Str → Bool
  | [], [] => true
  | _ :: _, [] => false
  | [], _ :: _ => false
  | c :: ps, d :: ds =>
    if c = '*' then !(d == '.') && (wildMatch ps ds || wildMatch (c :: ps) ds)
    else c == d && wildMatch ps ds

/-- `isWildcardMatch(domainToMatch, rule)` from the helper module: exact
match, then `+.` eager-suffix rules, then `.` suffix rules, then `*`
wildcard rules; anything else does not match. -/
def isWildcardMatch (domainToMatch rule : Str) : Bool :=
  let d := lower domainToMatch
  let r := lower rule
  if d = r then true
  else if (['+', '.'] : Str) <+: r then
    let s := r.drop 2
    decide (d = s) || decide (('.' :: s) <:+ d)
  else if (['.'] : Str) <+: r then
    decide (('.' :: r.drop 1) <:+ d)
  else if '*' ∈ r then
    wildMatch r d
  else false

/-!
## Provider store (`src/core/network.ts`)
-/

/-- The module-level provider cache, keyed by URL. -/
abbrev Cache := List (Str × List Str)

/-- `providerCache.get(url)` (with `has` folded in). -/
def cacheLookup (σ : Cache) (url : Str) : Option (List Str) :=
  (σ.find? (fun kv => kv.1 == url)).map (fun kv => kv.2)

/-- `providerCache.set(url, rules)`; the most recent binding wins. -/
def cacheInsert (σ : Cache) (url : Str) (rs : List Str) : Cache :=
  (url, rs) :: σ

/-- The error message `getRulesFromProvider` wraps every failure in. -/
def wrapProviderError (url m : Str) : Str :=
  (("Failed to fetch or parse provider from ").toList) ++ url ++ ((": ").toList) ++ m

/-- The payload-shape error raised for a yaml provider (the source quotes
the word payload). -/
def yamlShapeError : Str :=
  (("YAML provider does not contain a valid payload array.").toList)

/-- The `text` format branch: split on line breaks, trim each line, drop
blank lines and lines beginning with a hash. -/
def parseText (text : Str) : List Str :=
  ((splitChar '\n' text).map trim).filter
    (fun l => !l.isEmpty && !(decide ((['#'] : Str) <+: l)))

/-- `getRulesFromProvider(url, format = 'yaml')`: consult the cache, else
fetch the body, parse it according to `format`, cache and return the
rules; any failure is rethrown wrapped in `wrapProviderError`.  The
transport and the YAML library are abstract collaborators. -/
def getRulesFromProvider (transport : Str → Except Str Str)
    (yamlPayload : Str → Option (List Str))
    (url format : Str) (σ : Cache) : Except Str (List Str) × Cache :=
  match cacheLookup σ url with
  | some rs => (.ok rs, σ)
  | none =>
    match transport url with
    | .error cause => (.error (wrapProviderError url cause), σ)
    | .ok text =>
      if format = (("yaml").toList) then
        match yamlPayload text with
        | some rs => (.ok rs, cacheInsert σ url rs)
        | none => (.error (wrapProviderError url yamlShapeError), σ)
      else
        let rs := parseText text
        (.ok rs, cacheInsert σ url rs)

/-!
## Two concurrent calls to `getRulesFromProvider`

JavaScript is single-threaded and the body of `getRulesFromProvider`
yields exactly once, at `await fetch(...)` (the `response.text()` await
changes nothing for the cache race and is folded into the same step).  A
call for an uncached URL therefore runs as two atomic steps: the cache
check which, on a miss, issues the fetch, and the continuation which
receives the body and writes the cache.  `Sys` holds two such calls for
the same URL over the shared cache together with the number of fetches
issued; a schedule says which call advances at each moment. -/
inductive TaskState where
  | start : TaskState
  | fetching : TaskState
  | done : List Str → TaskState
deriving DecidableEq

/-- One atomic step of a single `getRulesFromProvider(url)` call; the
`Nat` component counts fetches issued so far. -/
def taskStep (url : Str) (fetched : List Str) :
    TaskState × Cache × Nat → TaskState × Cache × Nat
  | (.start, σ, n) =>
    match cacheLookup σ url with
    | some rs => (.done rs, σ, n)
    | none => (.fetching, σ, n + 1)
  | (.fetching, σ, n) => (.done fetched, cacheInsert σ url fetched, n)
  | (.done rs, σ, n) => (.done rs, σ, n)

/-- Two calls `a` and `b` sharing the cache and the fetch counter. -/
structure Sys where
  a : TaskState
  b : TaskState
  cache : Cache
  count : Nat
deriving DecidableEq

/-- Advance call `a` (pick `true`) or call `b` (pick `false`). -/
def sysStep (url : Str) (fetched : List Str) (s : Sys) (pick : Bool) : Sys :=
  if pick then
    let r := taskStep url fetched (s.a, s.cache, s.count)
    { a := r.1, b := s.b, cache := r.2.1, count := r.2.2 }
  else
    let r := taskStep url fetched (s.b, s.cache, s.count)
    { a := s.a, b := r.1, cache := r.2.1, count := r.2.2 }

/-- Run a schedule of steps. -/
def runSched (url : Str) (fetched : List Str) (sched : List Bool) (s : Sys) : Sys :=
  sched.foldl (sysStep url fetched) s

/-- Both calls about to start on an empty cache. -/
def initSys : Sys := { a := .start, b := .start, cache := [], count := 0 }

/-!
## Configuration objects (`src/core/configParser.ts`)
-/

/-- A `rule-providers` entry.  The spec requires `http` providers to carry
a `url`; the field is unused for `inline` providers and modelled as the
empty string when absent. -/
structure RuleProvider where
  type : Str
  behavior : Option Str
  url : Str
  format : Option Str
  payload : Option (List Str)
deriving DecidableEq

/-- The parsed configuration: `rules` (the source defaults a missing field
to `[]`, modelled by the caller passing `[]`) and the `rule-providers`
map, modelled as an association list with JavaScript object lookup. -/
structure Config where
  rules : List Str
  providers : List (Str × RuleProvider)
deriving DecidableEq

/-- `providers[value]`. -/
def lookupProvider (ps : List (Str × RuleProvider)) (name : Str) : Option RuleProvider :=
  (ps.find? (fun kv => kv.1 == name)).map (fun kv => kv.2)

/-- The result object built by `matchDomain`. -/
structure MatchResult where
  domain : Str
  resolvedIp : Option Str
  matchingRule : Str
  subMatchingRule : Option Str
  finalPolicy : Str
deriving DecidableEq

/-!
## Scored provider-internal selection (`matchAgainstRuleList`)
-/

/-- The score the loop body of `matchAgainstRuleList` assigns to one line
(`-1` means the line does not match).  This is the inline computation of
the source extracted as a function; a `continue` in the source leaves the
score at `-1`, which the fold below treats identically. -/
def lineScore (cidr : Str → Option (Str → Bool)) (rtest : Str → Str → Bool)
    (behavior ld : Str) (rIp : Option Str) (line : Str) : Int :=
  if behavior = (("domain").toList) then
    if (['+', '.'] : Str) <+: line then
      let value := line.drop 2
      if ld = value then 4000 + (value.length : Int)
      else if ('.' :: value) <:+ ld then 2000 + (value.length : Int)
      else -1
    else if (['.'] : Str) <+: line then
      let value := line.drop 1
      if ('.' :: value) <:+ ld then 2000 + (value.length : Int) else -1
    else if '*' ∈ line then
      if rtest line ld then 3000 + ((line.filter (fun c => !(c == '*'))).length : Int)
      else -1
    else
      if ld = line then 4000 + (line.length : Int) else -1
  else if behavior = (("ipcidr").toList) then
    match rIp with
    | some ip =>
      match cidr line with
      | some ctn => if ctn ip then 1000 + (line.length : Int) else -1
      | none => -1
    | none => -1
  else
    let parts := splitChar ',' line
    let ty := upper (parts.getD 0 [])
    let value := parts.getD 1 []
    if value = [] then -1
    else if (ty = (("DOMAIN").toList) ∧ ld = lower value) ∨
            (ty = (("DOMAIN-SUFFIX").toList) ∧ ld = lower value) then
      4000 + (value.length : Int)
    else if ty = (("DOMAIN-SUFFIX").toList) ∧ ('.' :: lower value) <:+ ld then
      2000 + (value.length : Int)
    else if ty = (("DOMAIN-KEYWORD").toList) ∧ (lower value) <:+: ld then
      1000 + (value.length : Int)
    else if ty = (("IP-CIDR").toList) then
      match rIp with
      | some ip =>
        match cidr value with
        | some ctn => if ctn ip then 1000 + (value.length : Int) else -1
        | none => -1
      | none => -1
    else -1

/-- The `bestMatch` fold of `matchAgainstRuleList`: a strictly better
score replaces the current best, so ties keep the earlier line. -/
def bestLoop (f : Str → Int) : List Str → Str × Int → Str × Int
  | [], acc => acc
  | l :: ls, acc => bestLoop f ls (if f l > acc.2 then (l, f l) else acc)

/-- `matchAgainstRuleList(domain, resolvedIp, rules, behavior =
'classical')`: fold the rules with `bestLoop` starting from the sentinel
`("", -1)` and return the best rule, or `none` when nothing matched. -/
def matchAgainstRuleList (cidr : Str → Option (Str → Bool))
    (rtest : Str → Str → Bool) (domain : Str) (rIp : Option Str)
    (rules : List Str) (behavior : Str) : Option Str :=
  let ld := lower domain
  let res := bestLoop (lineScore cidr rtest behavior ld rIp) rules ([], -1)
  if res.2 ≠ -1 then some res.1 else none

/-!
## The evaluation engine (`matchDomain`)
-/

/-- `rules.some(r => r.toUpperCase().startsWith('IP-CIDR') ||
r.toUpperCase().startsWith('RULE-SET'))`. -/
def hasIpBasedRules (rules : List Str) : Bool :=
  rules.any (fun r =>
    decide ((("IP-CIDR").toList) <+: upper r) || decide ((("RULE-SET").toList) <+: upper r))

/-- JavaScript truthiness of the resolved address: the empty string and
`null` both count as absent. -/
def normIp : Option Str → Option Str
  | some [] => none
  | o => o

/-- Everything the loop body of `matchDomain` reads. -/
structure EvalCtx where
  cidr : Str → Option (Str → Bool)
  rtest : Str → Str → Bool
  fetch : Str → Str → Except Str (List Str)
  providers : List (Str × RuleProvider)
  domain : Str
  resolvedIp : Option Str

/-- `parts[parts.length - 1]`. -/
def policyOf (line : Str) : Str := (splitChar ',' line).getLastD []

/-- The result object returned for a matching line. -/
def mkResult (ctx : EvalCtx) (ruleString : Str) (sub : Option Str) : MatchResult :=
  { domain := ctx.domain, resolvedIp := ctx.resolvedIp, matchingRule := ruleString,
    subMatchingRule := sub, finalPolicy := policyOf ruleString }

/-- One iteration of the `for` loop of `matchDomain`: `.ok none` when the
line is skipped or does not match, `.ok (some sub)` when it matches (with
the winning provider sub-rule, if any), `.error` when resolving a
`RULE-SET` line throws. -/
def lineStep (ctx : EvalCtx) (ruleString : Str) : Except Str (Option (Option Str)) :=
  let parts := splitChar ',' ruleString
  if parts.length < 2 then .ok none
  else
    let ld := lower ctx.domain
    let ruleType := upper (parts.getD 0 [])
    let value := parts.getD 1 []
    if ruleType = (("DOMAIN-SUFFIX").toList) then
      .ok (if ld = lower value ∨ ('.' :: lower value) <:+ ld then some none else none)
    else if ruleType = (("DOMAIN").toList) then
      .ok (if ld = lower value then some none else none)
    else if ruleType = (("DOMAIN-KEYWORD").toList) then
      .ok (if (lower value) <:+: ld then some none else none)
    else if ruleType = (("IP-CIDR").toList) then
      .ok (match ctx.resolvedIp with
           | some ip =>
             match ctx.cidr value with
             | some ctn => if ctn ip then some none else none
             | none => none
           | none => none)
    else if ruleType = (("RULE-SET").toList) then
      match lookupProvider ctx.providers value with
      | none => .ok none
      | some p =>
        let fetched : Except Str (Option (List Str)) :=
          if p.type = (("http").toList) then
            (ctx.fetch p.url (p.format.getD (("yaml").toList))).map some
          else if p.type = (("inline").toList) then .ok p.payload
          else .ok none
        match fetched with
        | .error m =>
          .error ((("Provider \"").toList) ++ value ++ (("\": ").toList) ++ m)
        | .ok none => .ok none
        | .ok (some rs) =>
          match matchAgainstRuleList ctx.cidr ctx.rtest ctx.domain ctx.resolvedIp rs
              (p.behavior.getD (("classical").toList)) with
          | some sub => if sub = [] then .ok none else .ok (some (some sub))
          | none => .ok none
    else if ruleType = (("MATCH").toList) ∨ ruleType = (("FINAL").toList) then
      .ok (some none)
    else .ok none

/-- The `for` loop of `matchDomain`: first match wins, a provider error
aborts, exhaustion yields `none`. -/
def walkRules (ctx : EvalCtx) : List Str → Except Str (Option MatchResult)
  | [] => .ok none
  | r :: rest =>
    match lineStep ctx r with
    | .error e => .error e
    | .ok none => walkRules ctx rest
    | .ok (some sub) => .ok (some (mkResult ctx r sub))

/-- The context `matchDomain` evaluates its loop in: the address is
resolved once, up front, exactly when `hasIpBasedRules`. -/
def evalCtx (cidr : Str → Option (Str → Bool)) (rtest : Str → Str → Bool)
    (resolver : Str → Option Str) (fetch : Str → Str → Except Str (List Str))
    (cfg : Config) (domain : Str) : EvalCtx :=
  { cidr := cidr, rtest := rtest, fetch := fetch, providers := cfg.providers,
    domain := domain,
    resolvedIp := normIp (if hasIpBasedRules cfg.rules then resolver domain else none) }

/-- `matchDomain(config, domain)` from `src/core/ruleMatcher.ts`. -/
def matchDomain (cidr : Str → Option (Str → Bool)) (rtest : Str → Str → Bool)
    (resolver : Str → Option Str) (fetch : Str → Str → Except Str (List Str))
    (cfg : Config) (domain : Str) : Except Str (Option MatchResult) :=
  walkRules (evalCtx cidr rtest resolver fetch cfg domain) cfg.rules

/-!
## Concrete instances used by witnesses and counterexamples
-/

/-- A CIDR library that rejects every expression. -/
def cidr0 : Str → Option (Str → Bool) := fun _ => none

/-- A regex tester that never matches. -/
def rtest0 : Str → Str → Bool := fun _ _ => false

/-- A resolver that always fails. -/
def resolver0 : Str → Option Str := fun _ => none

/-- A resolver that returns a fixed address. -/
def resolver1 : Str → Option Str := fun _ => some (("1.2.3.4").toList)

/-- A provider fetcher that always fails with an empty message. -/
def fetch0 : Str → Str → Except Str (List Str) := fun _ _ => .error []

/-- The configuration of the worked example in the spec. -/
def cfgC2 : Config :=
  { rules := [(("DOMAIN-SUFFIX,google.com,PROXY").toList), (("MATCH,DIRECT").toList)],
    providers := [] }

/-- The result the worked example returns. -/
def resC2 : MatchResult :=
  { domain := (("www.google.com").toList), resolvedIp := none,
    matchingRule := (("DOMAIN-SUFFIX,google.com,PROXY").toList),
    subMatchingRule := none, finalPolicy := (("PROXY").toList) }

/-- A rule list whose first textual match is not its best match. -/
def rulesC3 : List Str := [((".baidu.com").toList), (("www.baidu.com").toList)]

/-- An http provider whose fetch will fail. -/
def provC7 : RuleProvider :=
  { type := (("http").toList), behavior := some (("domain").toList),
    url := (("https://example.com/reject.txt").toList),
    format := some (("text").toList), payload := none }

/-- A configuration whose only rule consults the failing provider. -/
def cfgC7 : Config :=
  { rules := [(("RULE-SET,reject,REJECT").toList)],
    providers := [((("reject").toList), provC7)] }

/-- A fetcher failing with a fixed message. -/
def fetchFail : Str → Str → Except Str (List Str) := fun _ _ => .error (("boom").toList)

/-- A configuration with an IP-CIDR6 line: its kind is neither IP-CIDR
nor RULE-SET, yet its text starts with IP-CIDR. -/
def cfgC9 : Config :=
  { rules := [(("IP-CIDR6,2001:db8::/32,DIRECT").toList), (("MATCH,DIRECT").toList)],
    providers := [] }

/-- A configuration whose only rule has no comma. -/
def cfgC10 : Config := { rules := [(("MATCH").toList)], providers := [] }

/-- The URL used in the cache-race scenarios. -/
def urlC4 : Str := (("https://example.com/rules.txt").toList)

/-- The payload used in the cache-race scenarios. -/
def rulesC4 : List Str := [(("DOMAIN-SUFFIX,example.com").toList)]

/-- The evaluation context of the worked example. -/
def ctxC2 : EvalCtx := evalCtx cidr0 rtest0 resolver0 fetch0 cfgC2 (("www.google.com").toList)

/-- A transport returning a fixed text body with comments and blanks. -/
def transportC8 : Str → Except Str Str := fun _ => .ok (("  a\n#c\n\n b ").toList)

/-- A YAML library stub. -/
def yamlP0 : Str → Option (List Str) := fun _ => none

/-!
## Lemmas about the string primitives
-/

theorem splitChar_ne_nil (sep : Char) (l : Str) : splitChar sep l ≠ [] := by
  cases l with
  | nil => simp [splitChar]
  | cons c rest =>
    cases h : splitChar sep rest with
    | nil => simp [splitChar, h]
    | cons a t =>
      simp only [splitChar, h]
      split <;> simp

theorem splitChar_not_mem {sep : Char} : ∀ {a : Str}, sep ∉ a → splitChar sep a = [a] := by
  intro a
  induction a with
  | nil => intro _; rfl
  | cons c rest ih =>
    intro h
    have hc : c ≠ sep := by
      intro e; exact h (e ▸ List.mem_cons_self c rest)
    have hr : sep ∉ rest := fun e => h (List.mem_cons_of_mem c e)
    simp [splitChar, ih hr, hc]

theorem splitChar_cons_sep (sep : Char) (r : Str) :
    splitChar sep (sep :: r) = [] :: splitChar sep r := by
  simp only [splitChar]
  cases h : splitChar sep r with
  | nil => exact absurd h (splitChar_ne_nil sep r)
  | cons a t => simp

theorem splitChar_append {sep : Char} {a : Str} (r : Str) (h : sep ∉ a) :
    splitChar sep (a ++ sep :: r) = a :: splitChar sep r := by
  induction a with
  | nil => simpa using splitChar_cons_sep sep r
  | cons c xs ih =>
    have hc : c ≠ sep := by
      intro e; exact h (e ▸ List.mem_cons_self c xs)
    have hxs : sep ∉ xs := fun e => h (List.mem_cons_of_mem c e)
    have hh := ih hxs
    simp only [List.cons_append, splitChar, List.append_eq]
    rw [hh]
    simp [hc]

theorem splitChar_three {t v p : Str} (ht : ',' ∉ t) (hv : ',' ∉ v) (hp : ',' ∉ p) :
    splitChar ',' (t ++ ',' :: v ++ ',' :: p) = [t, v, p] := by
  have e : t ++ ',' :: v ++ ',' :: p = t ++ ',' :: (v ++ ',' :: p) := by simp
  rw [e, splitChar_append _ ht, splitChar_append _ hv, splitChar_not_mem hp]

theorem dropWhile_dropWhile (p : Char → Bool) (l : Str) :
    (l.dropWhile p).dropWhile p = l.dropWhile p := by
  induction l with
  | nil => rfl
  | cons c t ih =>
    by_cases h : p c
    · simp [List.dropWhile_cons, h, ih]
    · simp [List.dropWhile_cons, h]

theorem dropWhile_head_not (p : Char → Bool) :
    ∀ {l : Str} {c : Char} {t : Str}, l.dropWhile p = c :: t → p c = false := by
  intro l
  induction l with
  | nil => intro c t h; simp at h
  | cons a l ih =>
    intro c t h
    by_cases ha : p a
    · exact ih (by simpa [List.dropWhile_cons, ha] using h)
    · rw [List.dropWhile_cons, if_neg ha] at h
      cases h
      simpa using ha

theorem exists_append_dropWhile (p : Char → Bool) (l : Str) :
    ∃ t, t ++ l.dropWhile p = l := by
  induction l with
  | nil => exact ⟨[], rfl⟩
  | cons c l ih =>
    by_cases h : p c
    · obtain ⟨t, ht⟩ := ih
      exact ⟨c :: t, by simp [List.dropWhile_cons, h, ht]⟩
    · exact ⟨[], by simp [List.dropWhile_cons, h]⟩

theorem trim_dropWhile (l : Str) : (trim l).dropWhile wsp = trim l := by
  cases hg : trim l with
  | nil => rfl
  | cons c t =>
    obtain ⟨u, hu⟩ := exists_append_dropWhile wsp (l.dropWhile wsp).reverse
    have hrev : (l.dropWhile wsp).reverse.dropWhile wsp = t.reverse ++ [c] := by
      have h2 := congrArg List.reverse hg
      simpa [trim, List.reverse_reverse] using h2
    have hn : l.dropWhile wsp = c :: (t ++ u.reverse) := by
      rw [hrev] at hu
      have h3 := congrArg List.reverse hu
      simpa [List.reverse_append, List.reverse_reverse] using h3.symm
    have hc : wsp c = false := dropWhile_head_not wsp hn
    simp [List.dropWhile_cons, hc]

theorem trim_trim (l : Str) : trim (trim l) = trim l := by
  have h1 := trim_dropWhile l
  show (((trim l).dropWhile wsp).reverse.dropWhile wsp).reverse = trim l
  rw [h1]
  have h2 : (trim l).reverse = (l.dropWhile wsp).reverse.dropWhile wsp := by
    simp [trim, List.reverse_reverse]
  rw [h2, dropWhile_dropWhile]
  simp [trim]

/-!
## Lemmas about the wildcard matcher
-/

theorem wildMatch_lit_iff : ∀ {p : Str}, '*' ∉ p → ∀ {ds : Str},
    (wildMatch p ds = true ↔ p = ds) := by
  intro p
  induction p with
  | nil =>
    intro _ ds
    cases ds <;> simp [wildMatch]
  | cons c p ih =>
    intro hp ds
    have hc : c ≠ '*' := by
      intro e; exact hp (e ▸ List.mem_cons_self c p)
    have hp' : '*' ∉ p := fun e => hp (List.mem_cons_of_mem c e)
    cases ds with
    | nil => simp [wildMatch]
    | cons d ds' =>
      simp only [wildMatch, if_neg hc, Bool.and_eq_true, beq_iff_eq, ih hp',
        List.cons.injEq]

theorem wildMatch_star_iff (ps : Str) : ∀ (ds : Str),
    (wildMatch ('*' :: ps) ds = true ↔
      ∃ ℓ rest, ds = ℓ ++ rest ∧ ℓ ≠ [] ∧ '.' ∉ ℓ ∧ wildMatch ps rest = true) := by
  intro ds
  induction ds with
  | nil =>
    simp only [wildMatch, Bool.false_eq_true, false_iff]
    rintro ⟨ℓ, rest, heq, hne, -, -⟩
    cases ℓ with
    | nil => exact hne rfl
    | cons e ℓ' => exact absurd heq.symm (by simp)
  | cons d ds' ih =>
    have e : wildMatch ('*' :: ps) (d :: ds') =
        (!(d == '.') && (wildMatch ps ds' || wildMatch ('*' :: ps) ds')) := by
      simp [wildMatch]
    rw [e]
    constructor
    · intro h
      simp only [Bool.and_eq_true, Bool.not_eq_true', beq_eq_false_iff_ne,
        Bool.or_eq_true] at h
      obtain ⟨hd, h2⟩ := h
      cases h2 with
      | inl hm => exact ⟨[d], ds', by simp, by simp, by simpa using hd.symm, hm⟩
      | inr hm =>
        obtain ⟨ℓ, rest, heq, hne, hdot, hm'⟩ := ih.1 hm
        refine ⟨d :: ℓ, rest, by simp [heq], by simp, ?_, hm'⟩
        simp only [List.mem_cons]
        rintro (h | h)
        · exact hd h.symm
        · exact hdot h
    · rintro ⟨ℓ, rest, heq, hne, hdot, hm⟩
      cases ℓ with
      | nil => exact absurd rfl hne
      | cons e ℓ' =>
        simp only [List.cons_append, List.cons.injEq] at heq
        obtain ⟨rfl, hds⟩ := heq
        have hd : ¬ d = '.' := fun h => hdot (by simp [h])
        simp only [Bool.and_eq_true, Bool.not_eq_true', beq_eq_false_iff_ne,
          Bool.or_eq_true]
        refine ⟨hd, ?_⟩
        cases ℓ' with
        | nil =>
          left
          simpa [hds] using hm
        | cons f ℓ'' =>
          right
          refine ih.2 ⟨f :: ℓ'', rest, hds, by simp, ?_, hm⟩
          intro h
          exact hdot (List.mem_cons_of_mem _ h)

/-!
## Lemmas about the scored selection
-/

theorem bestLoop_spec (f : Str → Int) : ∀ (ls : List Str) (br : Str) (bs : Int),
    (bestLoop f ls (br, bs) = (br, bs) ∧ ∀ l ∈ ls, f l ≤ bs) ∨
    (∃ pre r post, ls = pre ++ r :: post ∧ bestLoop f ls (br, bs) = (r, f r) ∧
      bs < f r ∧ (∀ l ∈ pre, f l < f r) ∧ (∀ l ∈ post, f l ≤ f r)) := by
  intro ls
  induction ls with
  | nil =>
    intro br bs
    left
    exact ⟨rfl, by simp⟩
  | cons l ls ih =>
    intro br bs
    by_cases h : f l > bs
    · have e : bestLoop f (l :: ls) (br, bs) = bestLoop f ls (l, f l) := by
        simp [bestLoop, h]
      rcases ih l (f l) with ⟨h1, h2⟩ | ⟨pre, r, post, hsplit, hres, hgt, hpre, hpost⟩
      · right
        exact ⟨[], l, ls, rfl, by rw [e, h1], h, by simp, h2⟩
      · right
        refine ⟨l :: pre, r, post, by simp [hsplit], by rw [e, hres],
          lt_trans h hgt, ?_, hpost⟩
        intro x hx
        rcases List.mem_cons.1 hx with rfl | hx
        · exact hgt
        · exact hpre x hx
    · push_neg at h
      have e : bestLoop f (l :: ls) (br, bs) = bestLoop f ls (br, bs) := by
        simp [bestLoop, not_lt.2 h]
      rcases ih br bs with ⟨h1, h2⟩ | ⟨pre, r, post, hsplit, hres, hgt, hpre, hpost⟩
      · left
        refine ⟨by rw [e, h1], ?_⟩
        intro x hx
        rcases List.mem_cons.1 hx with rfl | hx
        · exact h
        · exact h2 x hx
      · right
        refine ⟨l :: pre, r, post, by simp [hsplit], by rw [e, hres], hgt, ?_, hpost⟩
        intro x hx
        rcases List.mem_cons.1 hx with rfl | hx
        · exact lt_of_le_of_lt h hgt
        · exact hpre x hx

theorem lineScore_domain_lb (cidr : Str → Option (Str → Bool))
    (rtest : Str → Str → Bool) (ld : Str) (rIp : Option Str) (line : Str) :
    -1 ≤ lineScore cidr rtest (("domain").toList) ld rIp line := by
  unfold lineScore
  rw [if_pos rfl]
  dsimp only
  split_ifs <;> omega

/-!
## Lemmas about the evaluation walk
-/

theorem walkRules_append_of_none {ctx : EvalCtx} {pre : List Str}
    (h : ∀ l ∈ pre, lineStep ctx l = .ok none) (rest : List Str) :
    walkRules ctx (pre ++ rest) = walkRules ctx rest := by
  induction pre with
  | nil => rfl
  | cons r pre ih =>
    have hr : lineStep ctx r = .ok none := h r (List.mem_cons_self r pre)
    have hpre : ∀ l ∈ pre, lineStep ctx l = .ok none :=
      fun l hl => h l (List.mem_cons_of_mem r hl)
    simp [walkRules, hr, ih hpre]

theorem walkRules_spec (ctx : EvalCtx) : ∀ rules : List Str,
    (∀ res, walkRules ctx rules = .ok (some res) →
      ∃ pre line post sub, rules = pre ++ line :: post ∧
        (∀ l ∈ pre, lineStep ctx l = .ok none) ∧
        lineStep ctx line = .ok (some sub) ∧ res = mkResult ctx line sub) ∧
    (walkRules ctx rules = .ok none → ∀ l ∈ rules, lineStep ctx l = .ok none) := by
  intro rules
  induction rules with
  | nil =>
    constructor
    · intro res h
      simp [walkRules] at h
    · intro _ l hl
      exact absurd hl (List.not_mem_nil l)
  | cons r rest ih =>
    constructor
    · intro res h
      cases hls : lineStep ctx r with
      | error e =>
        rw [walkRules, hls] at h
        simp at h
      | ok o =>
        cases o with
        | none =>
          rw [walkRules, hls] at h
          obtain ⟨pre, line, post, sub, hsplit, hpre, hline, hres⟩ := ih.1 res h
          refine ⟨r :: pre, line, post, sub, by simp [hsplit], ?_, hline, hres⟩
          intro l hl
          rcases List.mem_cons.1 hl with rfl | hl
          · exact hls
          · exact hpre l hl
        | some sub =>
          rw [walkRules, hls] at h
          simp only [Except.ok.injEq, Option.some.injEq] at h
          exact ⟨[], r, rest, sub, rfl, by simp, hls, h.symm⟩
    · intro h l hl
      cases hls : lineStep ctx r with
      | error e =>
        rw [walkRules, hls] at h
        simp at h
      | ok o =>
        cases o with
        | none =>
          rw [walkRules, hls] at h
          rcases List.mem_cons.1 hl with rfl | hl
          · exact hls
          · exact ih.2 h l hl
        | some sub =>
          rw [walkRules, hls] at h
          simp at h

theorem lineStep_no_comma (ctx : EvalCtx) (l : Str) (h : ',' ∉ l) :
    lineStep ctx l = .ok none := by
  unfold lineStep
  rw [splitChar_not_mem h]
  rw [if_pos (by simp)]

theorem lineStep_domain_suffix (ctx : EvalCtx) (v p : Str) (hv : ',' ∉ v) (hp : ',' ∉ p) :
    lineStep ctx ((("DOMAIN-SUFFIX").toList) ++ ',' :: v ++ ',' :: p) =
      .ok (if lower ctx.domain = lower v ∨ ('.' :: lower v) <:+ lower ctx.domain
           then some none else none) := by
  have hsp := splitChar_three (t := ("DOMAIN-SUFFIX").toList) (by decide) hv hp
  unfold lineStep
  rw [hsp]
  rw [if_neg (by simp)]
  dsimp only
  simp only [List.getD_cons_zero, List.getD_cons_succ]
  simp only [show upper ((("DOMAIN-SUFFIX")).toList) = (("DOMAIN-SUFFIX")).toList from by decide,
    if_true]

theorem lineStep_domain_keyword (ctx : EvalCtx) (v p : Str) (hv : ',' ∉ v) (hp : ',' ∉ p) :
    lineStep ctx ((("DOMAIN-KEYWORD").toList) ++ ',' :: v ++ ',' :: p) =
      .ok (if (lower v) <:+: lower ctx.domain then some none else none) := by
  have hsp := splitChar_three (t := ("DOMAIN-KEYWORD").toList) (by decide) hv hp
  unfold lineStep
  rw [hsp]
  rw [if_neg (by simp)]
  dsimp only
  simp only [List.getD_cons_zero, List.getD_cons_succ]
  simp only [show upper ((("DOMAIN-KEYWORD")).toList) = (("DOMAIN-KEYWORD")).toList from by decide,
    if_true]
  rw [if_neg (by decide), if_neg (by decide)]

theorem lineStep_rule_set_http_error (ctx : EvalCtx) (v p m : Str)
    (hv : ',' ∉ v) (hp : ',' ∉ p) (prov : RuleProvider)
    (hprov : lookupProvider ctx.providers v = some prov)
    (htype : prov.type = (("http").toList))
    (hfetch : ctx.fetch prov.url (prov.format.getD (("yaml").toList)) = .error m) :
    lineStep ctx ((("RULE-SET").toList) ++ ',' :: v ++ ',' :: p) =
      .error ((("Provider \"").toList) ++ v ++ (("\": ").toList) ++ m) := by
  have hsp := splitChar_three (t := ("RULE-SET").toList) (by decide) hv hp
  unfold lineStep
  rw [hsp]
  rw [if_neg (by simp)]
  dsimp only
  simp only [List.getD_cons_zero, List.getD_cons_succ]
  simp only [show upper ((("RULE-SET")).toList) = (("RULE-SET")).toList from by decide,
    if_true]
  rw [hprov]
  dsimp only
  rw [if_pos htype, hfetch]
  rfl

theorem hasIpBasedRules_eq_false {rules : List Str}
    (h : ∀ l ∈ rules,
      ¬ (("IP-CIDR").toList) <+: upper l ∧ ¬ (("RULE-SET").toList) <+: upper l) :
    hasIpBasedRules rules = false := by
  unfold hasIpBasedRules
  rw [List.any_eq_false]
  intro l hl
  obtain ⟨h1, h2⟩ := h l hl
  simp only [Bool.or_eq_true, decide_eq_true_eq, not_or]
  exact ⟨h1, h2⟩

/-!
## The claims
-/

/-- Claim C1: for every config and domain, `matchDomain` walks the
top-level rules in declaration order and returns the result built from
the first matching line, with no reordering or scoring across top-level
rules; if the list is exhausted with no matching line it returns the
explicit no-match result (`none`). -/
theorem matchDomain_first_match_wins
    (cidr : Str → Option (Str → Bool)) (rtest : Str → Str → Bool)
    (resolver : Str → Option Str) (fetch : Str → Str → Except Str (List Str))
    (cfg : Config) (domain : Str) :
    (∀ res, matchDomain cidr rtest resolver fetch cfg domain = .ok (some res) →
      ∃ pre line post sub, cfg.rules = pre ++ line :: post ∧
        (∀ l ∈ pre, lineStep (evalCtx cidr rtest resolver fetch cfg domain) l = .ok none) ∧
        lineStep (evalCtx cidr rtest resolver fetch cfg domain) line = .ok (some sub) ∧
        res = mkResult (evalCtx cidr rtest resolver fetch cfg domain) line sub) ∧
    (matchDomain cidr rtest resolver fetch cfg domain = .ok none →
      ∀ l ∈ cfg.rules, lineStep (evalCtx cidr rtest resolver fetch cfg domain) l = .ok none) :=
  walkRules_spec (evalCtx cidr rtest resolver fetch cfg domain) cfg.rules

/-- Witness for C1 at the worked example. -/
theorem matchDomain_first_match_wins_witness :
    ∃ pre line post sub, cfgC2.rules = pre ++ line :: post ∧
      (∀ l ∈ pre, lineStep ctxC2 l = .ok none) ∧
      lineStep ctxC2 line = .ok (some sub) ∧
      resC2 = mkResult ctxC2 line sub :=
  (matchDomain_first_match_wins cidr0 rtest0 resolver0 fetch0 cfgC2
    (("www.google.com").toList)).1 resC2 rfl

/-- Claim C10: a top-level rule line with no comma is silently skipped and
treated as non-matching — including a bare MATCH or FINAL line — so a
rules list consisting only of such lines (for example just MATCH) yields
the no-match result rather than acting as a catch-all. -/
theorem commaless_lines_skipped
    (cidr : Str → Option (Str → Bool)) (rtest : Str → Str → Bool)
    (resolver : Str → Option Str) (fetch : Str → Str → Except Str (List Str))
    (cfg : Config) (domain : Str) (h : ∀ l ∈ cfg.rules, ',' ∉ l) :
    matchDomain cidr rtest resolver fetch cfg domain = .ok none := by
  unfold matchDomain
  have main : ∀ rules : List Str, (∀ l ∈ rules, ',' ∉ l) →
      walkRules (evalCtx cidr rtest resolver fetch cfg domain) rules = .ok none := by
    intro rules
    induction rules with
    | nil => intro _; rfl
    | cons r rest ih =>
      intro hrules
      have hr := lineStep_no_comma (evalCtx cidr rtest resolver fetch cfg domain) r
        (hrules r (List.mem_cons_self r rest))
      simp [walkRules, hr, ih (fun l hl => hrules l (List.mem_cons_of_mem r hl))]
  exact main cfg.rules h

/-- Witness for C10: the single rule MATCH produces no match. -/
theorem commaless_lines_skipped_witness :
    matchDomain cidr0 rtest0 resolver0 fetch0 cfgC10 (("example.com").toList) = .ok none :=
  commaless_lines_skipped cidr0 rtest0 resolver0 fetch0 cfgC10 (("example.com").toList)
    (by decide)

/-- Counterexample to claim C9 as stated: in `cfgC9` no top-level line has
kind IP-CIDR or RULE-SET (the first line has kind IP-CIDR6), yet the
outcome of the evaluation depends on the resolver — the address is
resolved and reported — because the source triggers resolution on a
prefix test of the rule text, not on the kind. -/
theorem resolution_trigger_kind_counterexample :
    (∀ l ∈ cfgC9.rules,
      upper ((splitChar ',' l).getD 0 []) ≠ (("IP-CIDR").toList) ∧
      upper ((splitChar ',' l).getD 0 []) ≠ (("RULE-SET").toList)) ∧
    matchDomain cidr0 rtest0 resolver1 fetch0 cfgC9 (("example.com").toList) ≠
      matchDomain cidr0 rtest0 resolver0 fetch0 cfgC9 (("example.com").toList) := by
  constructor
  · decide
  · intro h
    have e1 : matchDomain cidr0 rtest0 resolver1 fetch0 cfgC9 (("example.com").toList) =
        .ok (some { domain := (("example.com").toList),
                    resolvedIp := some (("1.2.3.4").toList),
                    matchingRule := (("MATCH,DIRECT").toList), subMatchingRule := none,
                    finalPolicy := (("DIRECT").toList) }) := rfl
    have e2 : matchDomain cidr0 rtest0 resolver0 fetch0 cfgC9 (("example.com").toList) =
        .ok (some { domain := (("example.com").toList), resolvedIp := none,
                    matchingRule := (("MATCH,DIRECT").toList), subMatchingRule := none,
                    finalPolicy := (("DIRECT").toList) }) := rfl
    rw [e1, e2] at h
    simp at h

/-- Claim C9 as amended: during one `matchDomain` call the address is
resolved at most once, up front — the outcome depends on the resolver
only through its single value at the queried domain — and only when some
top-level line starts (after upper-casing) with IP-CIDR or RULE-SET; when
no line does, no name resolution is performed at all. -/
theorem resolution_at_most_once_prefix_trigger :
    (∀ (cidr : Str → Option (Str → Bool)) (rtest : Str → Str → Bool)
       (fetch : Str → Str → Except Str (List Str)) (cfg : Config) (domain : Str)
       (res₁ res₂ : Str → Option Str), res₁ domain = res₂ domain →
      matchDomain cidr rtest res₁ fetch cfg domain =
        matchDomain cidr rtest res₂ fetch cfg domain) ∧
    (∀ (cidr : Str → Option (Str → Bool)) (rtest : Str → Str → Bool)
       (fetch : Str → Str → Except Str (List Str)) (cfg : Config) (domain : Str),
      (∀ l ∈ cfg.rules,
        ¬ (("IP-CIDR").toList) <+: upper l ∧ ¬ (("RULE-SET").toList) <+: upper l) →
      ∀ res₁ res₂ : Str → Option Str,
      matchDomain cidr rtest res₁ fetch cfg domain =
        matchDomain cidr rtest res₂ fetch cfg domain) := by
  constructor
  · intro cidr rtest fetch cfg domain res₁ res₂ h
    unfold matchDomain evalCtx
    rw [h]
  · intro cidr rtest fetch cfg domain h res₁ res₂
    have hf := hasIpBasedRules_eq_false h
    unfold matchDomain evalCtx
    rw [hf]
    simp

/-- Witness for the amended C9 on a config with no address-based lines. -/
theorem resolution_at_most_once_prefix_trigger_witness :
    matchDomain cidr0 rtest0 resolver0 fetch0 cfgC2 (("www.google.com").toList) =
      matchDomain cidr0 rtest0 resolver1 fetch0 cfgC2 (("www.google.com").toList) :=
  resolution_at_most_once_prefix_trigger.2 cidr0 rtest0 fetch0 cfgC2
    (("www.google.com").toList) (by decide) resolver0 resolver1

/-- Counterexample to claim C4 as stated: two calls for the same uncached
URL whose cache checks interleave before either fetch completes both
issue a fetch — the count is 2, not 1.  The schedule alternates the two
calls, which is exactly what the JavaScript event loop does when the
second evaluation starts while the first is awaiting its fetch. -/
theorem concurrent_fetch_not_coalesced :
    (runSched urlC4 rulesC4 [true, false, true, false] initSys).a = .done rulesC4 ∧
    (runSched urlC4 rulesC4 [true, false, true, false] initSys).b = .done rulesC4 ∧
    (runSched urlC4 rulesC4 [true, false, true, false] initSys).count = 2 := by
  decide

/-- Claim C4 as amended: the cache only prevents a refetch after a fetch
has completed — a second call that starts after the first finished is
served from the cache (one fetch in total), but two calls whose cache
checks both precede either completion each issue their own fetch (two
fetches in total); there is no in-flight request coalescing. -/
theorem provider_cache_after_the_fact (url : Str) (fetched : List Str) :
    (runSched url fetched [true, true, false] initSys).count = 1 ∧
    (runSched url fetched [true, true, false] initSys).a = .done fetched ∧
    (runSched url fetched [true, true, false] initSys).b = .done fetched ∧
    (runSched url fetched [true, false, true, false] initSys).count = 2 := by
  refine ⟨?_, ?_, ?_, ?_⟩ <;>
    simp [runSched, sysStep, taskStep, initSys, cacheLookup, cacheInsert, List.find?]

/-- Claim C2: on the rules DOMAIN-SUFFIX,google.com,PROXY and MATCH,DIRECT
the domain www.google.com evaluates to final policy PROXY with matching
rule DOMAIN-SUFFIX,google.com,PROXY (the result `resC2`); and in general
a top-level DOMAIN-SUFFIX line matches exactly when the lower-cased
domain equals the lower-cased value or ends with a dot followed by it,
while DOMAIN-KEYWORD matches exactly when the lower-cased domain contains
the lower-cased value as a substring. -/
theorem evaluate_domain_suffix_keyword :
    matchDomain cidr0 rtest0 resolver0 fetch0 cfgC2 (("www.google.com").toList) =
      .ok (some resC2) ∧
    (∀ (ctx : EvalCtx) (v p : Str), ',' ∉ v → ',' ∉ p →
      lineStep ctx ((("DOMAIN-SUFFIX").toList) ++ ',' :: v ++ ',' :: p) =
        .ok (if lower ctx.domain = lower v ∨ ('.' :: lower v) <:+ lower ctx.domain
             then some none else none)) ∧
    (∀ (ctx : EvalCtx) (v p : Str), ',' ∉ v → ',' ∉ p →
      lineStep ctx ((("DOMAIN-KEYWORD").toList) ++ ',' :: v ++ ',' :: p) =
        .ok (if (lower v) <:+: lower ctx.domain then some none else none)) :=
  ⟨rfl, lineStep_domain_suffix, lineStep_domain_keyword⟩

/-- Witness for C2 at the DOMAIN-SUFFIX line of the worked example. -/
theorem evaluate_domain_suffix_keyword_witness :
    lineStep ctxC2
        ((("DOMAIN-SUFFIX").toList) ++ ',' :: (("google.com").toList) ++
          ',' :: (("PROXY").toList)) =
      .ok (if lower ctxC2.domain = lower (("google.com").toList) ∨
              ('.' :: lower (("google.com").toList)) <:+ lower ctxC2.domain
           then some none else none) :=
  evaluate_domain_suffix_keyword.2.1 ctxC2 (("google.com").toList) (("PROXY").toList)
    (by decide) (by decide)

/-- Claim C5: for all domains and suffixes, compared case-insensitively,
an eager-suffix pattern (plus-dot prefix) matches exactly when the domain
equals the suffix or ends with a dot followed by it, while a leading-dot
pattern matches exactly when the domain ends with a dot followed by the
suffix — the bare root does not match a leading-dot pattern, as the two
concrete baidu examples show. -/
theorem eager_suffix_dot_suffix_semantics :
    (∀ d s : Str,
      (isWildcardMatch d ('+' :: '.' :: s) = true ↔
        lower d = lower s ∨ ('.' :: lower s) <:+ lower d) ∧
      (isWildcardMatch d ('.' :: s) = true ↔ ('.' :: lower s) <:+ lower d)) ∧
    isWildcardMatch (("baidu.com").toList) ((".baidu.com").toList) = false ∧
    isWildcardMatch (("www.baidu.com").toList) ((".baidu.com").toList) = true := by
  refine ⟨?_, by decide, by decide⟩
  intro d s
  have hplus : lower ('+' :: '.' :: s) = '+' :: '.' :: lower s := by
    simp [lower, (by decide : Char.toLower '+' = '+'), (by decide : Char.toLower '.' = '.')]
  have hdot : lower ('.' :: s) = '.' :: lower s := by
    simp [lower, (by decide : Char.toLower '.' = '.')]
  constructor
  · unfold isWildcardMatch
    dsimp only
    rw [hplus]
    by_cases hex : lower d = '+' :: '.' :: lower s
    · rw [if_pos hex]
      constructor
      · intro _
        right
        rw [hex]
        exact ⟨['+'], rfl⟩
      · intro _
        rfl
    · rw [if_neg hex, if_pos ⟨lower s, rfl⟩]
      simp only [List.drop_succ_cons, List.drop_zero, Bool.or_eq_true, decide_eq_true_eq]
  · unfold isWildcardMatch
    dsimp only
    rw [hdot]
    by_cases hex : lower d = '.' :: lower s
    · rw [if_pos hex]
      constructor
      · intro _
        rw [hex]
      · intro _
        rfl
    · rw [if_neg hex, if_neg ?hplusneg, if_pos ⟨lower s, rfl⟩]
      · simp only [List.drop_succ_cons, List.drop_zero, decide_eq_true_eq]
      case hplusneg =>
        rintro ⟨t, ht⟩
        injection ht with h1 _
        exact absurd h1 (by decide)

/-- Claim C6: a pattern containing a star matches with each literal dot
matched literally and the star standing for one or more characters other
than a dot, anchored over the whole string, so the star matches exactly
one domain label: star-dot patterns match exactly the strings made of one
non-empty dot-free label, a dot, and the suffix.  The two concrete
examples show one level matching and two levels not matching.  (The
source swallows a regex construction failure and returns false; the
matcher is total, so a malformed pattern cannot abort evaluation.) -/
theorem wildcard_single_label_semantics :
    isWildcardMatch (("tieba.baidu.com").toList) (("*.baidu.com").toList) = true ∧
    isWildcardMatch (("a.b.baidu.com").toList) (("*.baidu.com").toList) = false ∧
    (∀ d s : Str, lower d = d → lower s = s → '*' ∉ d → '*' ∉ s →
      (isWildcardMatch d ('*' :: '.' :: s) = true ↔
        ∃ ℓ : Str, ℓ ≠ [] ∧ '.' ∉ ℓ ∧ d = ℓ ++ '.' :: s)) := by
  refine ⟨by decide, by decide, ?_⟩
  intro d s hd hs hds hss
  have hs' : s.map Char.toLower = s := hs
  have hpat : lower ('*' :: '.' :: s) = '*' :: '.' :: s := by
    simp [lower, (by decide : Char.toLower '*' = '*'),
      (by decide : Char.toLower '.' = '.'), hs']
  have hlit : '*' ∉ ('.' :: s) := by
    intro h
    rcases List.mem_cons.1 h with h | h
    · exact absurd h (by decide)
    · exact hss h
  unfold isWildcardMatch
  dsimp only
  rw [hpat, hd]
  rw [if_neg ?hex, if_neg ?hplus, if_neg ?hdotneg, if_pos (List.mem_cons_self '*' _)]
  case hex =>
    intro he
    apply hds
    rw [he]
    exact List.mem_cons_self '*' ('.' :: s)
  case hplus =>
    rintro ⟨t, ht⟩
    injection ht with h1 _
    exact absurd h1 (by decide)
  case hdotneg =>
    rintro ⟨t, ht⟩
    injection ht with h1 _
    exact absurd h1 (by decide)
  rw [wildMatch_star_iff]
  constructor
  · rintro ⟨ℓ, rest, heq, hne, hdot2, hm⟩
    have hr : ('.' :: s) = rest := (wildMatch_lit_iff hlit).1 hm
    exact ⟨ℓ, hne, hdot2, by rw [heq, ← hr]⟩
  · rintro ⟨ℓ, hne, hdot2, heq⟩
    exact ⟨ℓ, '.' :: s, heq, hne, hdot2, (wildMatch_lit_iff hlit).2 rfl⟩

/-- Witness for C6 at a concrete one-label subdomain. -/
theorem wildcard_single_label_semantics_witness :
    isWildcardMatch (("tieba.baidu.com").toList) ('*' :: '.' :: (("baidu.com").toList)) =
        true ↔
      ∃ ℓ : Str, ℓ ≠ [] ∧ '.' ∉ ℓ ∧
        (("tieba.baidu.com").toList) = ℓ ++ '.' :: (("baidu.com").toList) :=
  wildcard_single_label_semantics.2.2 (("tieba.baidu.com").toList) (("baidu.com").toList)
    (by decide) (by decide) (by decide) (by decide)

/-- Claim C7: whenever obtaining a RULE-SET http provider rule list fails,
`matchDomain` aborts the whole evaluation, propagating an error that
carries the provider name and the underlying cause, instead of treating
the line as non-matching and continuing; and `getRulesFromProvider` wraps
a transport failure in an error naming the URL and the cause. -/
theorem provider_error_propagates :
    (∀ (cidr : Str → Option (Str → Bool)) (rtest : Str → Str → Bool)
       (resolver : Str → Option Str) (fetch : Str → Str → Except Str (List Str))
       (cfg : Config) (domain : Str) (pre post : List Str) (name pol m : Str)
       (prov : RuleProvider),
      cfg.rules = pre ++ ((("RULE-SET").toList) ++ ',' :: name ++ ',' :: pol) :: post →
      (∀ l ∈ pre, lineStep (evalCtx cidr rtest resolver fetch cfg domain) l = .ok none) →
      ',' ∉ name → ',' ∉ pol →
      lookupProvider cfg.providers name = some prov →
      prov.type = (("http").toList) →
      fetch prov.url (prov.format.getD (("yaml").toList)) = .error m →
      matchDomain cidr rtest resolver fetch cfg domain =
        .error ((("Provider \"").toList) ++ name ++ (("\": ").toList) ++ m)) ∧
    (∀ (transport : Str → Except Str Str) (yamlPayload : Str → Option (List Str))
       (url format : Str) (σ : Cache) (cause : Str),
      cacheLookup σ url = none →
      transport url = .error cause →
      (getRulesFromProvider transport yamlPayload url format σ).1 =
        .error (wrapProviderError url cause)) := by
  constructor
  · intro cidr rtest resolver fetch cfg domain pre post name pol m prov hrules hpre
      hn hp hlook htype hfetch
    unfold matchDomain
    rw [hrules, walkRules_append_of_none hpre]
    have hstep := lineStep_rule_set_http_error
      (evalCtx cidr rtest resolver fetch cfg domain) name pol m hn hp prov hlook htype hfetch
    simp only [walkRules, hstep]
  · intro transport yamlPayload url format σ cause hc htr
    unfold getRulesFromProvider
    rw [hc]
    dsimp only
    rw [htr]

/-- Witness for C7: the provider set up to fail aborts the evaluation. -/
theorem provider_error_propagates_witness :
    matchDomain cidr0 rtest0 resolver0 fetchFail cfgC7 (("x.com").toList) =
      .error ((("Provider \"").toList) ++ (("reject").toList) ++ (("\": ").toList) ++
        (("boom").toList)) :=
  provider_error_propagates.1 cidr0 rtest0 resolver0 fetchFail cfgC7 (("x.com").toList)
    [] [] (("reject").toList) (("REJECT").toList) (("boom").toList) provC7
    (by decide) (by simp) (by decide) (by decide) rfl rfl rfl

/-- Claim C8: for an http provider with format text, on a cache miss
`getRulesFromProvider` splits the fetched body on line breaks, trims each
line and drops blank lines and lines beginning with a hash; every element
of the returned sequence is a trimmed, non-empty line that does not start
with a hash. -/
theorem text_format_lines (transport : Str → Except Str Str)
    (yamlPayload : Str → Option (List Str)) (url : Str) (σ : Cache) (text : Str)
    (hc : cacheLookup σ url = none) (ht : transport url = .ok text) :
    (getRulesFromProvider transport yamlPayload url (("text").toList) σ).1 =
      .ok (parseText text) ∧
    ∀ l ∈ parseText text, trim l = l ∧ l ≠ [] ∧ ¬ (['#'] : Str) <+: l := by
  constructor
  · unfold getRulesFromProvider
    rw [hc]
    dsimp only
    rw [ht]
    dsimp only
    rw [if_neg (by decide)]
  · intro l hl
    unfold parseText at hl
    obtain ⟨hmem, hpred⟩ := List.mem_filter.1 hl
    obtain ⟨raw, -, rfl⟩ := List.mem_map.1 hmem
    simp only [Bool.and_eq_true, Bool.not_eq_true', decide_eq_false_iff_not,
      List.isEmpty_eq_false] at hpred
    exact ⟨trim_trim raw, hpred.1, hpred.2⟩

/-- Witness for C8 on a body with leading blanks, a comment and a blank
line. -/
theorem text_format_lines_witness :
    (getRulesFromProvider transportC8 yamlP0 urlC4 (("text").toList) []).1 =
      .ok (parseText (("  a\n#c\n\n b ").toList)) ∧
    ∀ l ∈ parseText (("  a\n#c\n\n b ").toList),
      trim l = l ∧ l ≠ [] ∧ ¬ (['#'] : Str) <+: l :=
  text_format_lines transportC8 yamlP0 urlC4 [] (("  a\n#c\n\n b ").toList) rfl rfl

/-- Claim C3: with behavior domain, the provider-internal selection
returns the candidate whose score — eager-suffix or plain exact 4000 plus
matched length, suffix style 2000 plus matched length, wildcard 3000 plus
the pattern length without its stars, as computed by `lineScore` — is
strictly greater than every earlier candidate and at least every later
one: the highest score wins with ties broken by first occurrence, rather
than the first textually matching line, as `rulesC3` shows concretely. -/
theorem provider_domain_best_match :
    (∀ (cidr : Str → Option (Str → Bool)) (rtest : Str → Str → Bool)
       (domain : Str) (rIp : Option Str) (rules : List Str),
      (matchAgainstRuleList cidr rtest domain rIp rules (("domain").toList) = none →
        ∀ l ∈ rules,
          lineScore cidr rtest (("domain").toList) (lower domain) rIp l = -1) ∧
      (∀ r, matchAgainstRuleList cidr rtest domain rIp rules (("domain").toList) = some r →
        ∃ pre post, rules = pre ++ r :: post ∧
          lineScore cidr rtest (("domain").toList) (lower domain) rIp r ≠ -1 ∧
          (∀ l ∈ pre, lineScore cidr rtest (("domain").toList) (lower domain) rIp l <
            lineScore cidr rtest (("domain").toList) (lower domain) rIp r) ∧
          (∀ l ∈ post, lineScore cidr rtest (("domain").toList) (lower domain) rIp l ≤
            lineScore cidr rtest (("domain").toList) (lower domain) rIp r))) ∧
    matchAgainstRuleList cidr0 rtest0 (("www.baidu.com").toList) none rulesC3
      (("domain").toList) = some (("www.baidu.com").toList) := by
  constructor
  · intro cidr rtest domain rIp rules
    have hspec := bestLoop_spec
      (lineScore cidr rtest (("domain").toList) (lower domain) rIp) rules [] (-1)
    constructor
    · intro hnone l hl
      rcases hspec with ⟨h1, h2⟩ | ⟨pre, r, post, hsplit, hres, hgt, hpre, hpost⟩
      · have h3 := h2 l hl
        have h4 := lineScore_domain_lb cidr rtest (lower domain) rIp l
        omega
      · exfalso
        have hne : lineScore cidr rtest (("domain").toList) (lower domain) rIp r ≠ -1 := by
          omega
        unfold matchAgainstRuleList at hnone
        dsimp only at hnone
        rw [hres] at hnone
        dsimp only at hnone
        rw [if_pos hne] at hnone
        exact Option.noConfusion hnone
    · intro r hsome
      rcases hspec with ⟨h1, h2⟩ | ⟨pre, r', post, hsplit, hres, hgt, hpre, hpost⟩
      · exfalso
        unfold matchAgainstRuleList at hsome
        dsimp only at hsome
        rw [h1] at hsome
        dsimp only at hsome
        rw [if_neg (by omega)] at hsome
        exact Option.noConfusion hsome
      · have hne : lineScore cidr rtest (("domain").toList) (lower domain) rIp r' ≠ -1 := by
          omega
        unfold matchAgainstRuleList at hsome
        dsimp only at hsome
        rw [hres] at hsome
        dsimp only at hsome
        rw [if_pos hne] at hsome
        simp only [Option.some.injEq] at hsome
        subst hsome
        exact ⟨pre, post, hsplit, hne, hpre, hpost⟩
  · rfl

/-- Witness for C3: the exact line wins over the earlier suffix line. -/
theorem provider_domain_best_match_witness :
    ∃ pre post, rulesC3 = pre ++ (("www.baidu.com").toList) :: post ∧
      lineScore cidr0 rtest0 (("domain").toList) (lower (("www.baidu.com").toList)) none
        (("www.baidu.com").toList) ≠ -1 ∧
      (∀ l ∈ pre,
        lineScore cidr0 rtest0 (("domain").toList) (lower (("www.baidu.com").toList)) none l <
          lineScore cidr0 rtest0 (("domain").toList) (lower (("www.baidu.com").toList)) none
            (("www.baidu.com").toList)) ∧
      (∀ l ∈ post,
        lineScore cidr0 rtest0 (("domain").toList) (lower (("www.baidu.com").toList)) none l ≤
          lineScore cidr0 rtest0 (("domain").toList) (lower (("www.baidu.com").toList)) none
            (("www.baidu.com").toList)) :=
  (provider_domain_best_match.1 cidr0 rtest0 (("www.baidu.com").toList) none rulesC3).2
    (("www.baidu.com").toList) rfl
